import Mathlib

/-!
Verification of the ComfyUI Model Linker frontend (the linker dialog
sources).  The definitions below are shallow embeddings of the dialog's
pure decision logic: candidate filtering and ordering, resolution
planning, bulk auto-resolution, the download polling state machine, and
byte formatting.  The server-side graph patcher is not part of the
shipped sources here; it is modelled from the specification where noted.
-/

/-- A local model file as the backend reports it; the fields the frontend
reads are path, relative_path and filename. -/
structure ResolvedModel where
  path : String
  relative_path : Option String := none
  filename : Option String := none
deriving DecidableEq

/-- A scored match candidate: one element of an entry's matches array.
Every candidate carries the file it proposes (the data model's
MatchCandidate always has a file), so the JS truthiness guards on the
model field are vacuous here. -/
structure MatchCandidate where
  confidence : Nat
  filename : Option String := none
  model : ResolvedModel
deriving DecidableEq

/-- One graph reference to a missing model: an element of all_node_refs. -/
structure NodeRef where
  node_id : Nat
  widget_index : Nat
  category : Option String := none
  subgraph_id : Option String := none
  is_top_level : Bool := true
deriving DecidableEq

/-- A missing-model entry as analyze returns it to the dialog; the entry
itself doubles as its primary reference (node_id, widget_index, subgraph_id,
is_top_level). -/
structure MissingModel where
  node_id : Nat
  widget_index : Nat
  original_path : String
  category : Option String := none
  subgraph_id : Option String := none
  is_top_level : Bool := true
  matchList : List MatchCandidate := []
  all_node_refs : Option (List NodeRef) := none
deriving DecidableEq

/-- Candidates at or above the 70 confidence floor
(JS: matches.filter(m => m.confidence >= 70)). -/
def filteredMatches (m : MissingModel) : List MatchCandidate :=
  m.matchList.filter (fun c => decide (70 ≤ c.confidence))

/-- Whether an entry has a perfect candidate among the floor-filtered ones
(JS: aFiltered.some(m => m.confidence === 100)). -/
def has100 (m : MissingModel) : Bool :=
  (filteredMatches m).any (fun c => c.confidence == 100)

/-- Best available candidate confidence, 0 when nothing reaches the floor
(JS: aFiltered.length > 0 ? Math.max(...aFiltered.map(m => m.confidence)) : 0). -/
def bestConf (m : MissingModel) : Nat :=
  if (filteredMatches m).isEmpty then 0
  else ((filteredMatches m).map (fun c => c.confidence)).foldl Nat.max 0

/-- The comparator of displayMissingModels as a boolean order: entryLE a b
holds when the JS comparator returns a non-positive number on (a, b), so a
may come before b. -/
def entryLE (a b : MissingModel) : Bool :=
  if has100 a && !(has100 b) then true
  else if !(has100 a) && has100 b then false
  else decide (bestConf b ≤ bestConf a)

/-- The order the dialog displays missing-model entries in
(JS: missingModels.sort with the comparator above). -/
def sortedMissingModels (l : List MissingModel) : List MissingModel :=
  l.mergeSort entryLE

/-- The ordering policy the spec states for displayed entries: an entry with
a perfect candidate never follows one without, and inside one group the best
available confidence is descending. -/
def displayOrder (a b : MissingModel) : Prop :=
  (has100 b = true → has100 a = true) ∧
  (has100 a = has100 b → bestConf b ≤ bestConf a)

lemma entryLE_trans (a b c : MissingModel) (hab : entryLE a b = true)
    (hbc : entryLE b c = true) : entryLE a c = true := by
  cases ha : has100 a <;> cases hb : has100 b <;> cases hc : has100 c <;>
    simp [entryLE, ha, hb, hc] at hab hbc ⊢ <;> omega

lemma entryLE_total (a b : MissingModel) : (entryLE a b || entryLE b a) = true := by
  cases ha : has100 a <;> cases hb : has100 b <;>
    simp [entryLE, ha, hb] <;> omega

lemma entryLE_displayOrder {a b : MissingModel} (h : entryLE a b = true) :
    displayOrder a b := by
  cases ha : has100 a <;> cases hb : has100 b <;>
    simp [entryLE, ha, hb, displayOrder] at h ⊢ <;> omega

/-- C1: the displayed list of missing-model entries is a permutation of the
analyze result in which every entry having a candidate of confidence 100 at
or above the 70 floor precedes every entry having none, and within each of
the two groups the best available candidate confidence (0 when no candidate
reaches the floor) is descending. -/
theorem c1_display_ordering (l : List MissingModel) :
    (sortedMissingModels l).Perm l ∧ (sortedMissingModels l).Pairwise displayOrder := by
  refine ⟨List.mergeSort_perm l entryLE, ?_⟩
  exact List.Pairwise.imp (fun h => entryLE_displayOrder h)
    (List.sorted_mergeSort entryLE_trans entryLE_total l)

/-- Comparator of renderMissingModel's final match sort as a boolean order:
perfect candidates first, then confidence descending. -/
def matchLE (a b : MatchCandidate) : Bool :=
  if a.confidence == 100 && !(b.confidence == 100) then true
  else if !(a.confidence == 100) && b.confidence == 100 then false
  else decide (b.confidence ≤ a.confidence)

/-- Perfect candidates among the floor-filtered ones
(JS: filteredMatches.filter(m => m.confidence === 100)). -/
def perfectMatches (m : MissingModel) : List MatchCandidate :=
  (filteredMatches m).filter (fun c => c.confidence == 100)

/-- Imperfect candidates at the floor (JS: filteredMatches.filter(m =>
m.confidence < 100 && m.confidence >= 70)). -/
def otherMatches (m : MissingModel) : List MatchCandidate :=
  (filteredMatches m).filter
    (fun c => decide (c.confidence < 100) && decide (70 ≤ c.confidence))

/-- Descending order on candidate confidence
(JS: (a, b) => b.confidence - a.confidence). -/
def descLE (a b : MatchCandidate) : Bool :=
  decide (b.confidence ≤ a.confidence)

/-- JS: otherMatches.sort((a, b) => b.confidence - a.confidence). -/
def sortByConfidenceDesc (l : List MatchCandidate) : List MatchCandidate :=
  l.mergeSort descLE

/-- JS: perfectMatches.length > 0 ? perfectMatches :
otherMatches.sort(...).slice(0, 5). -/
def matchesToShow (m : MissingModel) : List MatchCandidate :=
  if 0 < (perfectMatches m).length then perfectMatches m
  else (sortByConfidenceDesc (otherMatches m)).take 5

/-- The candidate rows one card renders, each with a resolve button
(JS: matchesToShow.sort with the 100-first comparator). -/
def sortedMatches (m : MissingModel) : List MatchCandidate :=
  (matchesToShow m).mergeSort matchLE

/-- The note shown below perfect candidates: when perfect candidates exist
together with imperfect ones, the count of the suppressed imperfect
candidates is still displayed (JS: if (perfectMatches.length > 0 &&
otherMatches.length > 0) render otherMatches.length). -/
def otherMatchesNote (m : MissingModel) : Option Nat :=
  if 0 < (perfectMatches m).length ∧ 0 < (otherMatches m).length then
    some (otherMatches m).length
  else none

/-- What the Local Matches column of one card contains. -/
inductive LocalMatchesView where
  | shown (rows : List MatchCandidate) (note : Option Nat)
  | noMatchesAbove70
  | noLocalMatches
deriving DecidableEq

/-- The Local Matches column of renderMissingModel: candidate rows when any
candidate reaches the floor, otherwise one of the two informational
messages; an entry without usable candidates is still rendered as a card,
never as an error. -/
def renderLocalMatches (m : MissingModel) : LocalMatchesView :=
  if 0 < (filteredMatches m).length then
    .shown (sortedMatches m) (otherMatchesNote m)
  else if 0 < m.matchList.length then .noMatchesAbove70
  else .noLocalMatches

/-- The candidate rows rendered with resolve actions, [] for the
message-only cards. -/
def shownCandidates (m : MissingModel) : List MatchCandidate :=
  match renderLocalMatches m with
  | .shown rows _ => rows
  | _ => []

/-- The entry's own reference fields as a NodeRef; resolveModel falls back
to them when all_node_refs is absent (JS: missing.all_node_refs ||
[missing]). -/
def primaryRef (m : MissingModel) : NodeRef :=
  { node_id := m.node_id, widget_index := m.widget_index,
    category := m.category, subgraph_id := m.subgraph_id,
    is_top_level := m.is_top_level }

/-- JS: const nodeRefs = missing.all_node_refs || [missing]. -/
def nodeRefsOf (m : MissingModel) : List NodeRef :=
  m.all_node_refs.getD [primaryRef m]

/-- One pending resolution as the dialog posts it to the resolve
endpoint. -/
structure Resolution where
  node_id : Nat
  widget_index : Nat
  resolved_path : String
  category : Option String := none
  resolved_model : ResolvedModel
  subgraph_id : Option String := none
  is_top_level : Bool := true
deriving DecidableEq

/-- The resolution batch resolveModel builds for one chosen file: one
resolution per deduplicated reference (JS: nodeRefs.map(ref => ({ node_id:
ref.node_id, widget_index: ref.widget_index, resolved_path:
resolvedModel.path, category: ref.category, resolved_model: resolvedModel,
subgraph_id: ref.subgraph_id, is_top_level: ref.is_top_level }))). -/
def buildResolutions (missing : MissingModel) (resolvedModel : ResolvedModel) :
    List Resolution :=
  (nodeRefsOf missing).map (fun ref =>
    { node_id := ref.node_id, widget_index := ref.widget_index,
      resolved_path := resolvedModel.path, category := ref.category,
      resolved_model := resolvedModel, subgraph_id := ref.subgraph_id,
      is_top_level := ref.is_top_level })

/-- Field-level correspondence between a graph reference and the resolution
built for it from a chosen file. -/
def resolutionFor (rm : ResolvedModel) (ref : NodeRef) (r : Resolution) : Prop :=
  r.node_id = ref.node_id ∧ r.widget_index = ref.widget_index ∧
  r.subgraph_id = ref.subgraph_id ∧ r.is_top_level = ref.is_top_level ∧
  r.category = ref.category ∧ r.resolved_path = rm.path ∧ r.resolved_model = rm

lemma buildResolutions_forall2 (m : MissingModel) (rm : ResolvedModel) :
    List.Forall₂ (resolutionFor rm) (nodeRefsOf m) (buildResolutions m rm) := by
  unfold buildResolutions
  rw [List.forall₂_map_right_iff, List.forall₂_same]
  intro ref _
  simp [resolutionFor]

/-- C2: resolving an entry against a chosen file produces exactly one
pending resolution per member of the entry's deduplicated reference set
(all_node_refs), in order, each carrying that reference's node id, widget
index, subgraph id, is_top_level flag and category together with the chosen
file's path, so one decision patches every graph reference to the same
missing file, subgraph-definition occurrences included. -/
theorem c2_resolution_per_reference (m : MissingModel) (rm : ResolvedModel)
    (refs : List NodeRef) (h : m.all_node_refs = some refs) :
    (buildResolutions m rm).length = refs.length ∧
    List.Forall₂ (resolutionFor rm) refs (buildResolutions m rm) := by
  have hrefs : nodeRefsOf m = refs := by simp [nodeRefsOf, h]
  have h2 := buildResolutions_forall2 m rm
  rw [hrefs] at h2
  exact ⟨(List.Forall₂.length_eq h2).symm, h2⟩

/-- Sample local file used by the concrete witnesses below. -/
def sampleModel : ResolvedModel :=
  { path := "checkpoints/subdir/model_v1.safetensors",
    filename := some "model_v1.safetensors" }

/-- Sample top-level reference. -/
def sampleRefTop : NodeRef := { node_id := 3, widget_index := 0 }

/-- Sample subgraph-definition reference. -/
def sampleRefSub : NodeRef :=
  { node_id := 7, widget_index := 1,
    subgraph_id := some "aaaaaaaa-bbbb-cccc-dddd-eeeeeeeeeeee",
    is_top_level := false }

/-- Sample entry referenced from a top-level node and a subgraph
definition. -/
def sampleEntryTwoRefs : MissingModel :=
  { node_id := 3, widget_index := 0,
    original_path := "checkpoints/model_v1.safetensors",
    all_node_refs := some [sampleRefTop, sampleRefSub] }

/-- Witness for C2 at a concrete entry with a top-level and a
subgraph-definition reference. -/
theorem c2_witness :
    (buildResolutions sampleEntryTwoRefs sampleModel).length =
      [sampleRefTop, sampleRefSub].length ∧
    List.Forall₂ (resolutionFor sampleModel) [sampleRefTop, sampleRefSub]
      (buildResolutions sampleEntryTwoRefs sampleModel) :=
  c2_resolution_per_reference sampleEntryTwoRefs sampleModel
    [sampleRefTop, sampleRefSub] rfl

lemma mem_filteredMatches_conf {m : MissingModel} {c : MatchCandidate}
    (h : c ∈ filteredMatches m) : 70 ≤ c.confidence := by
  have := (List.mem_filter.mp h).2
  simpa using this

lemma perfectMatches_subset {m : MissingModel} {c : MatchCandidate}
    (h : c ∈ perfectMatches m) : c ∈ filteredMatches m :=
  (List.mem_filter.mp h).1

lemma mem_perfectMatches_conf {m : MissingModel} {c : MatchCandidate}
    (h : c ∈ perfectMatches m) : c.confidence = 100 := by
  have := (List.mem_filter.mp h).2
  simpa using this

lemma otherMatches_subset {m : MissingModel} {c : MatchCandidate}
    (h : c ∈ otherMatches m) : c ∈ filteredMatches m :=
  (List.mem_filter.mp h).1

lemma mem_otherMatches_conf {m : MissingModel} {c : MatchCandidate}
    (h : c ∈ otherMatches m) : 70 ≤ c.confidence ∧ c.confidence < 100 := by
  have := (List.mem_filter.mp h).2
  simp at this
  omega

lemma mem_sortedMatches {m : MissingModel} {c : MatchCandidate}
    (h : c ∈ sortedMatches m) : c ∈ matchesToShow m := by
  unfold sortedMatches at h
  exact List.mem_mergeSort.mp h

lemma mem_matchesToShow {m : MissingModel} {c : MatchCandidate}
    (h : c ∈ matchesToShow m) : c ∈ filteredMatches m := by
  unfold matchesToShow at h
  split at h
  · exact perfectMatches_subset h
  · have h1 := List.mem_of_mem_take h
    unfold sortByConfidenceDesc at h1
    exact otherMatches_subset (List.mem_mergeSort.mp h1)

/-- C3: once an entry has a perfect candidate, the rows rendered for action
are exactly the confidence-100 candidates (as a permutation of them, so
every 70 to 99 candidate is suppressed), while the count of the suppressed
imperfect candidates is still reported. -/
theorem c3_perfect_suppresses_others (m : MissingModel)
    (h : 0 < (perfectMatches m).length) :
    (sortedMatches m).Perm (perfectMatches m) ∧
    (∀ c ∈ sortedMatches m, c.confidence = 100) ∧
    (0 < (otherMatches m).length →
      otherMatchesNote m = some (otherMatches m).length) := by
  have hshow : matchesToShow m = perfectMatches m := by
    simp [matchesToShow, h]
  refine ⟨?_, ?_, ?_⟩
  · unfold sortedMatches
    rw [hshow]
    exact List.mergeSort_perm _ _
  · intro c hc
    exact mem_perfectMatches_conf (hshow ▸ mem_sortedMatches hc)
  · intro ho
    unfold otherMatchesNote
    rw [if_pos ⟨h, ho⟩]

/-- Sample perfect candidate. -/
def cand100 : MatchCandidate := { confidence := 100, model := sampleModel }

/-- Sample imperfect candidate at 85. -/
def cand85 : MatchCandidate :=
  { confidence := 85, model := { path := "checkpoints/near_match.safetensors" } }

/-- Sample imperfect candidate at 90. -/
def cand90 : MatchCandidate :=
  { confidence := 90, model := { path := "checkpoints/close_match.safetensors" } }

/-- Sample candidate below the floor. -/
def cand50 : MatchCandidate :=
  { confidence := 50, model := { path := "checkpoints/far_match.safetensors" } }

/-- Sample entry with one perfect and one imperfect candidate. -/
def sampleEntryPerfect : MissingModel :=
  { node_id := 1, widget_index := 0,
    original_path := "checkpoints/model_v1.safetensors",
    matchList := [cand85, cand100] }

/-- Witness for C3 at a concrete entry holding a perfect and an imperfect
candidate. -/
theorem c3_witness :
    (sortedMatches sampleEntryPerfect).Perm (perfectMatches sampleEntryPerfect) ∧
    (∀ c ∈ sortedMatches sampleEntryPerfect, c.confidence = 100) ∧
    (0 < (otherMatches sampleEntryPerfect).length →
      otherMatchesNote sampleEntryPerfect =
        some (otherMatches sampleEntryPerfect).length) :=
  c3_perfect_suppresses_others sampleEntryPerfect (by decide)

/-- C8: every candidate rendered with a resolve action is at or above the 70
confidence floor, and an entry whose candidates all fall below the floor, or
which has none at all, still renders as a card carrying one of the two
no-match messages - never an error. -/
theorem c8_floor_and_no_error (m : MissingModel) :
    (∀ c ∈ shownCandidates m, 70 ≤ c.confidence) ∧
    ((filteredMatches m).length = 0 →
      renderLocalMatches m = LocalMatchesView.noMatchesAbove70 ∨
      renderLocalMatches m = LocalMatchesView.noLocalMatches) := by
  constructor
  · intro c hc
    by_cases hf : 0 < (filteredMatches m).length
    · have hrows : shownCandidates m = sortedMatches m := by
        simp [shownCandidates, renderLocalMatches, hf]
      rw [hrows] at hc
      exact mem_filteredMatches_conf (mem_matchesToShow (mem_sortedMatches hc))
    · have hrows : shownCandidates m = [] := by
        by_cases hm : 0 < m.matchList.length <;>
          simp [shownCandidates, renderLocalMatches, hf, hm]
      rw [hrows] at hc
      simp at hc
  · intro h0
    unfold renderLocalMatches
    rw [if_neg (by omega)]
    by_cases hm : 0 < m.matchList.length
    · exact Or.inl (if_pos hm)
    · exact Or.inr (if_neg hm)

lemma matchLE_trans (a b c : MatchCandidate) (hab : matchLE a b = true)
    (hbc : matchLE b c = true) : matchLE a c = true := by
  by_cases ha : a.confidence = 100 <;> by_cases hb : b.confidence = 100 <;>
    by_cases hc : c.confidence = 100 <;>
      simp [matchLE, beq_iff_eq, ha, hb, hc] at hab hbc ⊢ <;> omega

lemma matchLE_total (a b : MatchCandidate) : (matchLE a b || matchLE b a) = true := by
  by_cases ha : a.confidence = 100 <;> by_cases hb : b.confidence = 100 <;>
    simp [matchLE, beq_iff_eq, ha, hb] <;> omega

lemma descLE_trans (a b c : MatchCandidate) (hab : descLE a b = true)
    (hbc : descLE b c = true) : descLE a c = true := by
  simp [descLE] at hab hbc ⊢
  omega

lemma descLE_total (a b : MatchCandidate) : (descLE a b || descLE b a) = true := by
  simp [descLE]
  omega

/-- C9: when an entry has no perfect candidate, the rows rendered with
resolve actions are at most five, drawn from the floor-filtered imperfect
candidates, ordered by confidence descending, and they are the five highest:
every candidate left out by the five-row cut has confidence at most that of
every rendered row. -/
theorem c9_top_five_without_perfect (m : MissingModel)
    (h : (perfectMatches m).length = 0) :
    (sortedMatches m).length = min 5 (otherMatches m).length ∧
    (sortedMatches m).Pairwise (fun a b => b.confidence ≤ a.confidence) ∧
    (∀ c ∈ sortedMatches m, c ∈ otherMatches m ∧ 70 ≤ c.confidence) ∧
    (∀ a ∈ sortedMatches m,
      ∀ b ∈ (sortByConfidenceDesc (otherMatches m)).drop 5,
        b.confidence ≤ a.confidence) := by
  have hshow : matchesToShow m = (sortByConfidenceDesc (otherMatches m)).take 5 := by
    simp [matchesToShow, h]
  have hmemOther : ∀ c ∈ sortedMatches m, c ∈ otherMatches m := by
    intro c hc
    have h1 : c ∈ matchesToShow m := mem_sortedMatches hc
    rw [hshow] at h1
    have h2 := List.mem_of_mem_take h1
    unfold sortByConfidenceDesc at h2
    exact List.mem_mergeSort.mp h2
  refine ⟨?_, ?_, ?_, ?_⟩
  · unfold sortedMatches
    rw [List.length_mergeSort, hshow, List.length_take]
    unfold sortByConfidenceDesc
    rw [List.length_mergeSort]
  · have hp : (sortedMatches m).Pairwise (fun a b => matchLE a b = true) :=
      List.sorted_mergeSort matchLE_trans matchLE_total _
    refine hp.imp_of_mem ?_
    intro a b ha hb hab
    have ha' := mem_otherMatches_conf (hmemOther a ha)
    have hb' := mem_otherMatches_conf (hmemOther b hb)
    have hna : ¬(a.confidence = 100) := by omega
    have hnb : ¬(b.confidence = 100) := by omega
    simpa [matchLE, beq_iff_eq, hna, hnb] using hab
  · intro c hc
    exact ⟨hmemOther c hc, (mem_otherMatches_conf (hmemOther c hc)).1⟩
  · intro a ha b hb
    have hS : (sortByConfidenceDesc (otherMatches m)).Pairwise
        (fun x y => descLE x y = true) := by
      unfold sortByConfidenceDesc
      exact List.sorted_mergeSort descLE_trans descLE_total _
    rw [← List.take_append_drop 5 (sortByConfidenceDesc (otherMatches m))] at hS
    have ha' : a ∈ (sortByConfidenceDesc (otherMatches m)).take 5 := by
      have h1 := mem_sortedMatches ha
      rwa [hshow] at h1
    have hd := (List.pairwise_append.mp hS).2.2 a ha' b hb
    simpa [descLE] using hd

/-- Sample entry with only imperfect candidates. -/
def sampleEntryOthers : MissingModel :=
  { node_id := 4, widget_index := 0,
    original_path := "checkpoints/model_v2.safetensors",
    matchList := [cand85, cand90, cand50] }

/-- Witness for C9 at a concrete entry with imperfect candidates only. -/
theorem c9_witness :
    (sortedMatches sampleEntryOthers).length =
      min 5 (otherMatches sampleEntryOthers).length ∧
    (sortedMatches sampleEntryOthers).Pairwise
      (fun a b => b.confidence ≤ a.confidence) ∧
    (∀ c ∈ sortedMatches sampleEntryOthers,
      c ∈ otherMatches sampleEntryOthers ∧ 70 ≤ c.confidence) ∧
    (∀ a ∈ sortedMatches sampleEntryOthers,
      ∀ b ∈ (sortByConfidenceDesc (otherMatches sampleEntryOthers)).drop 5,
        b.confidence ≤ a.confidence) :=
  c9_top_five_without_perfect sampleEntryOthers (by decide)

/-- The single resolution autoResolve100Percent pushes for one entry: it
carries the entry's own primary reference fields, not the members of
all_node_refs (JS: resolutions.push({ node_id: missing.node_id,
widget_index: missing.widget_index, resolved_path: perfectMatch.model.path,
category: missing.category, resolved_model: perfectMatch.model, subgraph_id:
missing.subgraph_id, is_top_level: missing.is_top_level })). -/
def primaryResolution (m : MissingModel) (pm : MatchCandidate) : Resolution :=
  { node_id := m.node_id, widget_index := m.widget_index,
    resolved_path := pm.model.path, category := m.category,
    resolved_model := pm.model, subgraph_id := m.subgraph_id,
    is_top_level := m.is_top_level }

/-- The batch autoResolve100Percent submits in one resolve call: for every
entry, the first candidate at confidence 100 yields one resolution (JS: for
each missing, perfectMatch = matches.find(m => m.confidence === 100); the
truthiness check on perfectMatch.model always passes here because every
candidate carries its file). -/
def collectAutoResolutions (missingModels : List MissingModel) : List Resolution :=
  missingModels.filterMap (fun missing =>
    (missing.matchList.find? (fun c => c.confidence == 100)).map
      (primaryResolution missing))

/-- Entry for the C4 counterexample: one missing file referenced by two
graph nodes and matched perfectly by one local file. -/
def c4Entry : MissingModel :=
  { node_id := 3, widget_index := 0,
    original_path := "checkpoints/model_v1.safetensors",
    matchList := [cand100],
    all_node_refs := some [sampleRefTop, sampleRefSub] }

/-- Counterexample to C4 as stated: an entry whose deduplicated reference
set has two members contributes exactly one resolution to the bulk
auto-resolve batch - the one for its primary reference - not one per
reference. -/
theorem c4_counterexample :
    collectAutoResolutions [c4Entry] = [primaryResolution c4Entry cand100] ∧
    (nodeRefsOf c4Entry).length = 2 ∧
    (collectAutoResolutions [c4Entry]).length ≠ (nodeRefsOf c4Entry).length := by
  refine ⟨rfl, rfl, ?_⟩
  decide

/-- C4 as amended: bulk auto-resolution collects, across all entries of one
analyze result, exactly one resolution per entry that has a candidate at
confidence 100 - carrying that entry's primary reference fields and the
first perfect candidate's path - and submits them in a single resolve
batch; references beyond the entry's primary one are not covered. -/
theorem c4_one_resolution_per_entry (missingModels : List MissingModel) :
    (collectAutoResolutions missingModels).length =
      missingModels.countP
        (fun m => (m.matchList.find? (fun c => c.confidence == 100)).isSome) ∧
    (∀ r ∈ collectAutoResolutions missingModels, ∃ m ∈ missingModels, ∃ pm,
      m.matchList.find? (fun c => c.confidence == 100) = some pm ∧
      r = primaryResolution m pm) ∧
    (∀ m ∈ missingModels, ∀ pm,
      m.matchList.find? (fun c => c.confidence == 100) = some pm →
      primaryResolution m pm ∈ collectAutoResolutions missingModels) := by
  refine ⟨?_, ?_, ?_⟩
  · induction missingModels with
    | nil => rfl
    | cons m rest ih =>
      by_cases hm : (m.matchList.find? (fun c => c.confidence == 100)).isSome
      · obtain ⟨pm, hpm⟩ := Option.isSome_iff_exists.mp hm
        simp [collectAutoResolutions, List.countP_cons, hpm] at ih ⊢
        omega
      · rw [Option.not_isSome_iff_eq_none] at hm
        simp [collectAutoResolutions, List.countP_cons, hm] at ih ⊢
        exact ih
  · intro r hr
    obtain ⟨m, hm, hf⟩ := List.mem_filterMap.mp hr
    obtain ⟨pm, hpm, hr'⟩ := Option.map_eq_some'.mp hf
    exact ⟨m, hm, pm, hpm, hr'.symm⟩
  · intro m hm pm hpm
    refine List.mem_filterMap.mpr ⟨m, hm, ?_⟩
    rw [hpm]
    rfl

/-- One node of the serialized workflow graph: its id and its widget
values. -/
structure GraphNode where
  id : Nat
  widgets_values : List String
deriving DecidableEq

/-- One subgraph definition: its id and its nodes. -/
structure Subgraph where
  id : String
  nodes : List GraphNode
deriving DecidableEq

/-- The serialized workflow: top-level nodes and subgraph definitions. -/
structure Workflow where
  nodes : List GraphNode
  subgraphs : List Subgraph
deriving DecidableEq

/-- Modelled from the spec: the repository ships only the frontend sources
here, so the server-side Graph Patcher behind the resolve endpoint is
missing; section 4.5 specifies apply(graph, patches) with each patch naming
(nodeId, widgetIndex, subgraphId, newPath). This function patches one node
inside one node list, or reports failure when the node is absent or the
widget slot out of range. -/
def patchNodeList (nid widx : Nat) (newPath : String) :
    List GraphNode → Option (List GraphNode)
  | [] => none
  | n :: rest =>
    if n.id == nid then
      if widx < n.widgets_values.length then
        some ({ n with widgets_values := n.widgets_values.set widx newPath } :: rest)
      else none
    else (patchNodeList nid widx newPath rest).map (fun ns => n :: ns)

/-- Modelled from the spec: patching inside the named subgraph definition of
the missing Graph Patcher. -/
def patchSubgraphList (sid : String) (nid widx : Nat) (newPath : String) :
    List Subgraph → Option (List Subgraph)
  | [] => none
  | s :: rest =>
    if s.id == sid then
      (patchNodeList nid widx newPath s.nodes).map
        (fun ns => { s with nodes := ns } :: rest)
    else (patchSubgraphList sid nid widx newPath rest).map (fun ss => s :: ss)

/-- Widget-slot count of the node a patch names, none when the node is
absent from the list. -/
def widgetCount (nid : Nat) : List GraphNode → Option Nat
  | [] => none
  | n :: rest => if n.id == nid then some n.widgets_values.length else widgetCount nid rest

/-- Nodes of the subgraph definition a patch names. -/
def subgraphNodes (sid : String) : List Subgraph → Option (List GraphNode)
  | [] => none
  | s :: rest => if s.id == sid then some s.nodes else subgraphNodes sid rest

/-- The node list one resolution targets: the top-level nodes, or the named
subgraph definition. -/
def resTargetNodes (w : Workflow) (r : Resolution) : Option (List GraphNode) :=
  if r.is_top_level then some w.nodes
  else
    match r.subgraph_id with
    | some sid => subgraphNodes sid w.subgraphs
    | none => none

/-- Whether a node list holds the named node with the widget index in
range. -/
def validIn (widx nid : Nat) (ns : List GraphNode) : Bool :=
  match widgetCount nid ns with
  | some len => decide (widx < len)
  | none => false

/-- Modelled from the spec: a patch of the missing Graph Patcher is valid
when the node it names exists in its target node list and the widget index
is in range there. -/
def patchValid (w : Workflow) (r : Resolution) : Bool :=
  match resTargetNodes w r with
  | some ns => validIn r.widget_index r.node_id ns
  | none => false

/-- The error naming the offending reference, as section 4.5 requires the
rejected batch to identify it. -/
def patchErrorMessage (r : Resolution) : String :=
  "Node " ++ toString r.node_id ++ " (widget " ++ toString r.widget_index ++
    ") not found in workflow"

/-- Modelled from the spec: apply one resolution of the missing Graph
Patcher, or fail naming the offending reference. -/
def applyOneRes (w : Workflow) (r : Resolution) : Except String Workflow :=
  if r.is_top_level then
    match patchNodeList r.node_id r.widget_index r.resolved_path w.nodes with
    | some ns => .ok { w with nodes := ns }
    | none => .error (patchErrorMessage r)
  else
    match r.subgraph_id with
    | none => .error (patchErrorMessage r)
    | some sid =>
      match patchSubgraphList sid r.node_id r.widget_index r.resolved_path w.subgraphs with
      | some ss => .ok { w with subgraphs := ss }
      | none => .error (patchErrorMessage r)

/-- Modelled from the spec: the missing resolve endpoint's batch
application - patches are applied in order over the call's own snapshot and
the first failure aborts the whole call with the named error, so an error
outcome carries no partially patched graph. -/
def applyPatches (w : Workflow) : List Resolution → Except String Workflow
  | [] => .ok w
  | r :: rs =>
    match applyOneRes w r with
    | .ok w2 => applyPatches w2 rs
    | .error e => .error e

/-- The client's handling of the resolve response in resolveModel: only on
success is the returned workflow written back into the editor
(updateWorkflowInComfyUI); on failure a notification is shown and the
in-memory workflow stays as it was. -/
def clientApplyResolveResponse (current : Workflow)
    (resp : Except String Workflow) : Workflow :=
  match resp with
  | .ok w2 => w2
  | .error _ => current

/-- The shape of a node: its id and its number of widget slots; patching
a widget value preserves it. -/
def nodeShape (n : GraphNode) : Nat × Nat := (n.id, n.widgets_values.length)

/-- The shape of a subgraph definition. -/
def subShape (s : Subgraph) : String × List (Nat × Nat) := (s.id, s.nodes.map nodeShape)

/-- The shape of a workflow: what patch validity depends on. -/
def workflowShape (w : Workflow) :
    List (Nat × Nat) × List (String × List (Nat × Nat)) :=
  (w.nodes.map nodeShape, w.subgraphs.map subShape)

lemma patchNodeList_isSome (nid widx : Nat) (p : String) (ns : List GraphNode) :
    (patchNodeList nid widx p ns).isSome = validIn widx nid ns := by
  induction ns with
  | nil => rfl
  | cons n rest ih =>
    by_cases hid : n.id == nid
    · by_cases hw : widx < n.widgets_values.length <;>
        simp [patchNodeList, widgetCount, validIn, hid, hw]
    · simp [patchNodeList, widgetCount, validIn, hid] at ih ⊢
      exact ih

lemma patchNodeList_shape {nid widx : Nat} {p : String} {ns ns2 : List GraphNode}
    (h : patchNodeList nid widx p ns = some ns2) :
    ns2.map nodeShape = ns.map nodeShape := by
  induction ns generalizing ns2 with
  | nil => simp [patchNodeList] at h
  | cons n rest ih =>
    by_cases hid : n.id == nid
    · by_cases hw : widx < n.widgets_values.length
      · simp [patchNodeList, hid, hw] at h
        rw [← h]
        simp [nodeShape]
      · simp [patchNodeList, hid, hw] at h
    · simp [patchNodeList, hid] at h
      obtain ⟨rest2, hr, h2⟩ := h
      rw [← h2]
      simp [ih hr]

lemma widgetCount_congr {ns ms : List GraphNode}
    (h : ns.map nodeShape = ms.map nodeShape) (nid : Nat) :
    widgetCount nid ns = widgetCount nid ms := by
  induction ns generalizing ms with
  | nil =>
    have hms : ms = [] := by
      cases ms with
      | nil => rfl
      | cons m mrest => simp at h
    rw [hms]
  | cons n rest ih =>
    cases ms with
    | nil => simp at h
    | cons m mrest =>
      simp [nodeShape] at h
      obtain ⟨⟨hid, hlen⟩, htail⟩ := h
      rw [widgetCount, widgetCount, hid, hlen]
      by_cases hm : m.id == nid
      · simp [hm]
      · simp [hm]
        exact ih htail

lemma patchSubgraphList_isSome (sid : String) (nid widx : Nat) (p : String)
    (sgs : List Subgraph) :
    (patchSubgraphList sid nid widx p sgs).isSome =
      (match subgraphNodes sid sgs with
       | some ns => (patchNodeList nid widx p ns).isSome
       | none => false) := by
  induction sgs with
  | nil => rfl
  | cons s rest ih =>
    by_cases hsid : s.id == sid
    · simp [patchSubgraphList, subgraphNodes, hsid]
    · simp [patchSubgraphList, subgraphNodes, hsid, ih]

lemma patchSubgraphList_shape {sid : String} {nid widx : Nat} {p : String}
    {sgs sgs2 : List Subgraph}
    (h : patchSubgraphList sid nid widx p sgs = some sgs2) :
    sgs2.map subShape = sgs.map subShape := by
  induction sgs generalizing sgs2 with
  | nil => simp [patchSubgraphList] at h
  | cons s rest ih =>
    by_cases hsid : s.id == sid
    · simp [patchSubgraphList, hsid] at h
      obtain ⟨ns2, hns, h2⟩ := h
      rw [← h2]
      simp [subShape, patchNodeList_shape hns]
    · simp [patchSubgraphList, hsid] at h
      obtain ⟨rest2, hr, h2⟩ := h
      rw [← h2]
      simp [ih hr]

lemma subgraphNodes_congr {sgs ts : List Subgraph}
    (h : sgs.map subShape = ts.map subShape) (sid : String) :
    (subgraphNodes sid sgs).map (fun ns => ns.map nodeShape) =
      (subgraphNodes sid ts).map (fun ns => ns.map nodeShape) := by
  induction sgs generalizing ts with
  | nil =>
    have hts : ts = [] := by
      cases ts with
      | nil => rfl
      | cons t trest => simp at h
    rw [hts]
  | cons s rest ih =>
    cases ts with
    | nil => simp at h
    | cons t trest =>
      simp [subShape] at h
      obtain ⟨⟨hid, hnodes⟩, htail⟩ := h
      rw [subgraphNodes, subgraphNodes, hid]
      by_cases ht : t.id == sid
      · simp [ht, hnodes]
      · simp [ht]
        exact ih htail

lemma validIn_congr {ns ms : List GraphNode}
    (h : ns.map nodeShape = ms.map nodeShape) (widx nid : Nat) :
    validIn widx nid ns = validIn widx nid ms := by
  unfold validIn
  rw [widgetCount_congr h nid]

lemma patchValid_congr {w w2 : Workflow}
    (h : workflowShape w2 = workflowShape w) (r : Resolution) :
    patchValid w2 r = patchValid w r := by
  unfold workflowShape at h
  simp only [Prod.mk.injEq] at h
  obtain ⟨hn, hs⟩ := h
  unfold patchValid resTargetNodes
  by_cases htop : r.is_top_level
  · rw [if_pos htop, if_pos htop]
    show validIn r.widget_index r.node_id w2.nodes =
      validIn r.widget_index r.node_id w.nodes
    exact validIn_congr hn r.widget_index r.node_id
  · rw [if_neg htop, if_neg htop]
    cases hsub : r.subgraph_id with
    | none => rfl
    | some sid =>
      show (match subgraphNodes sid w2.subgraphs with
            | some ns => validIn r.widget_index r.node_id ns
            | none => false) =
          (match subgraphNodes sid w.subgraphs with
            | some ns => validIn r.widget_index r.node_id ns
            | none => false)
      have hopt := subgraphNodes_congr hs sid
      cases h2 : subgraphNodes sid w2.subgraphs with
      | none =>
        cases h1 : subgraphNodes sid w.subgraphs with
        | none => rfl
        | some ns => rw [h2, h1] at hopt; simp at hopt
      | some ns2 =>
        cases h1 : subgraphNodes sid w.subgraphs with
        | none => rw [h2, h1] at hopt; simp at hopt
        | some ns =>
          rw [h2, h1] at hopt
          simp only [Option.map_some'] at hopt
          simp only []
          exact validIn_congr (by simpa using hopt) r.widget_index r.node_id

lemma applyOneRes_top_eq {w : Workflow} {r : Resolution}
    (htop : r.is_top_level = true) :
    applyOneRes w r =
      (match patchNodeList r.node_id r.widget_index r.resolved_path w.nodes with
       | some ns => Except.ok { w with nodes := ns }
       | none => Except.error (patchErrorMessage r)) := by
  unfold applyOneRes
  rw [if_pos htop]

lemma applyOneRes_subnone_eq {w : Workflow} {r : Resolution}
    (htop : ¬r.is_top_level = true) (hsub : r.subgraph_id = none) :
    applyOneRes w r = Except.error (patchErrorMessage r) := by
  unfold applyOneRes
  rw [if_neg htop, hsub]

lemma applyOneRes_sub_eq {w : Workflow} {r : Resolution} {sid : String}
    (htop : ¬r.is_top_level = true) (hsub : r.subgraph_id = some sid) :
    applyOneRes w r =
      (match patchSubgraphList sid r.node_id r.widget_index r.resolved_path
          w.subgraphs with
       | some ss => Except.ok { w with subgraphs := ss }
       | none => Except.error (patchErrorMessage r)) := by
  unfold applyOneRes
  rw [if_neg htop, hsub]

lemma patchValid_top_eq {w : Workflow} {r : Resolution}
    (htop : r.is_top_level = true) :
    patchValid w r = validIn r.widget_index r.node_id w.nodes := by
  unfold patchValid resTargetNodes
  rw [if_pos htop]

lemma patchValid_subnone_eq {w : Workflow} {r : Resolution}
    (htop : ¬r.is_top_level = true) (hsub : r.subgraph_id = none) :
    patchValid w r = false := by
  unfold patchValid resTargetNodes
  rw [if_neg htop, hsub]

lemma patchValid_sub_eq {w : Workflow} {r : Resolution} {sid : String}
    (htop : ¬r.is_top_level = true) (hsub : r.subgraph_id = some sid) :
    patchValid w r =
      (match subgraphNodes sid w.subgraphs with
       | some ns => validIn r.widget_index r.node_id ns
       | none => false) := by
  unfold patchValid resTargetNodes
  rw [if_neg htop, hsub]

lemma applyOneRes_shape {w w2 : Workflow} {r : Resolution}
    (h : applyOneRes w r = Except.ok w2) :
    workflowShape w2 = workflowShape w := by
  by_cases htop : r.is_top_level
  · rw [applyOneRes_top_eq htop] at h
    cases hp : patchNodeList r.node_id r.widget_index r.resolved_path w.nodes with
    | none => rw [hp] at h; exact absurd h (by simp)
    | some ns =>
      rw [hp] at h
      simp only [Except.ok.injEq] at h
      rw [← h]
      unfold workflowShape
      simp [patchNodeList_shape hp]
  · cases hsub : r.subgraph_id with
    | none => rw [applyOneRes_subnone_eq htop hsub] at h; exact absurd h (by simp)
    | some sid =>
      rw [applyOneRes_sub_eq htop hsub] at h
      cases hp : patchSubgraphList sid r.node_id r.widget_index r.resolved_path
          w.subgraphs with
      | none => rw [hp] at h; exact absurd h (by simp)
      | some ss =>
        rw [hp] at h
        simp only [Except.ok.injEq] at h
        rw [← h]
        unfold workflowShape
        simp [patchSubgraphList_shape hp]

lemma applyOneRes_ok_of_valid {w : Workflow} {r : Resolution}
    (h : patchValid w r = true) : ∃ w2, applyOneRes w r = Except.ok w2 := by
  by_cases htop : r.is_top_level
  · rw [patchValid_top_eq htop] at h
    have hsome : (patchNodeList r.node_id r.widget_index r.resolved_path
        w.nodes).isSome = true := by
      rw [patchNodeList_isSome]
      exact h
    obtain ⟨ns, hns⟩ := Option.isSome_iff_exists.mp hsome
    rw [applyOneRes_top_eq htop, hns]
    exact ⟨_, rfl⟩
  · cases hsub : r.subgraph_id with
    | none =>
      rw [patchValid_subnone_eq htop hsub] at h
      exact absurd h (by simp)
    | some sid =>
      rw [patchValid_sub_eq htop hsub] at h
      have hsome : (patchSubgraphList sid r.node_id r.widget_index r.resolved_path
          w.subgraphs).isSome = true := by
        rw [patchSubgraphList_isSome]
        cases hsn : subgraphNodes sid w.subgraphs with
        | none => rw [hsn] at h; exact absurd h (by simp)
        | some ns =>
          rw [hsn] at h
          show (patchNodeList r.node_id r.widget_index r.resolved_path ns).isSome = true
          rw [patchNodeList_isSome]
          exact h
      obtain ⟨ss, hss⟩ := Option.isSome_iff_exists.mp hsome
      rw [applyOneRes_sub_eq htop hsub, hss]
      exact ⟨_, rfl⟩

lemma applyOneRes_error_facts {w : Workflow} {r : Resolution} {e : String}
    (h : applyOneRes w r = Except.error e) :
    e = patchErrorMessage r ∧ patchValid w r = false := by
  by_cases htop : r.is_top_level
  · rw [applyOneRes_top_eq htop] at h
    cases hp : patchNodeList r.node_id r.widget_index r.resolved_path w.nodes with
    | some ns => rw [hp] at h; exact absurd h (by simp)
    | none =>
      rw [hp] at h
      simp only [Except.error.injEq] at h
      refine ⟨h.symm, ?_⟩
      rw [patchValid_top_eq htop]
      have hsome : (patchNodeList r.node_id r.widget_index r.resolved_path
          w.nodes).isSome = false := by rw [hp]; rfl
      rw [patchNodeList_isSome] at hsome
      exact hsome
  · cases hsub : r.subgraph_id with
    | none =>
      rw [applyOneRes_subnone_eq htop hsub] at h
      simp only [Except.error.injEq] at h
      exact ⟨h.symm, patchValid_subnone_eq htop hsub⟩
    | some sid =>
      rw [applyOneRes_sub_eq htop hsub] at h
      cases hp : patchSubgraphList sid r.node_id r.widget_index r.resolved_path
          w.subgraphs with
      | some ss => rw [hp] at h; exact absurd h (by simp)
      | none =>
        rw [hp] at h
        simp only [Except.error.injEq] at h
        refine ⟨h.symm, ?_⟩
        rw [patchValid_sub_eq htop hsub]
        have hsome : (patchSubgraphList sid r.node_id r.widget_index r.resolved_path
            w.subgraphs).isSome = false := by rw [hp]; rfl
        rw [patchSubgraphList_isSome] at hsome
        cases hsn : subgraphNodes sid w.subgraphs with
        | none => rfl
        | some ns =>
          rw [hsn] at hsome
          show validIn r.widget_index r.node_id ns = false
          rw [← patchNodeList_isSome r.node_id r.widget_index r.resolved_path ns]
          exact hsome

lemma applyPatches_ok_of_valid {w : Workflow} {rs : List Resolution}
    (hv : ∀ r ∈ rs, patchValid w r = true) :
    ∃ w2, applyPatches w rs = Except.ok w2 := by
  induction rs generalizing w with
  | nil => exact ⟨w, rfl⟩
  | cons r rest ih =>
    obtain ⟨w2, hw2⟩ := applyOneRes_ok_of_valid (hv r (List.mem_cons_self r rest))
    have hrest : ∀ q ∈ rest, patchValid w2 q = true := by
      intro q hq
      rw [patchValid_congr (applyOneRes_shape hw2) q]
      exact hv q (List.mem_cons_of_mem r hq)
    obtain ⟨w3, hw3⟩ := ih hrest
    refine ⟨w3, ?_⟩
    unfold applyPatches
    rw [hw2]
    exact hw3

lemma applyPatches_error_facts {w : Workflow} {rs : List Resolution} {e : String}
    (h : applyPatches w rs = Except.error e) :
    ∃ r ∈ rs, patchValid w r = false ∧ e = patchErrorMessage r := by
  induction rs generalizing w with
  | nil => exact absurd h (by simp [applyPatches])
  | cons r rest ih =>
    unfold applyPatches at h
    cases ha : applyOneRes w r with
    | ok w2 =>
      rw [ha] at h
      obtain ⟨q, hq, hval, he⟩ := ih h
      refine ⟨q, List.mem_cons_of_mem r hq, ?_, he⟩
      rw [← patchValid_congr (applyOneRes_shape ha) q]
      exact hval
    | error e2 =>
      rw [ha] at h
      simp only [Except.error.injEq] at h
      obtain ⟨hmsg, hval⟩ := applyOneRes_error_facts ha
      exact ⟨r, List.mem_cons_self r rest, hval, by rw [← h, hmsg]⟩

/-- C5: spec-modelled batch application behind the resolve endpoint - when
every patch in the batch names an existing node and widget slot the whole
batch is applied and a patched graph is returned; otherwise the call fails
as a whole with an error naming an offending reference, no partially
patched graph is produced, and the client leaves its in-memory workflow
unchanged on a failed response. -/
theorem c5_batch_all_or_nothing (w : Workflow) (rs : List Resolution) :
    ((∀ r ∈ rs, patchValid w r = true) →
      ∃ w2, applyPatches w rs = Except.ok w2) ∧
    (∀ e, applyPatches w rs = Except.error e →
      (∃ r ∈ rs, patchValid w r = false ∧ e = patchErrorMessage r) ∧
      clientApplyResolveResponse w (applyPatches w rs) = w) := by
  refine ⟨fun hv => applyPatches_ok_of_valid hv, fun e he => ?_⟩
  refine ⟨applyPatches_error_facts he, ?_⟩
  rw [he]
  rfl

/-- Sample graph for the C5 witness: one top-level node and one subgraph
definition node. -/
def sampleWorkflow : Workflow :=
  { nodes := [{ id := 3, widgets_values := ["checkpoints/model_v1.safetensors"] }],
    subgraphs := [{ id := "aaaaaaaa-bbbb-cccc-dddd-eeeeeeeeeeee",
                    nodes := [{ id := 7,
                                widgets_values := ["x", "checkpoints/model_v1.safetensors"] }] }] }

/-- Witness for C5 at a concrete graph and batch. -/
theorem c5_witness :
    ((∀ r ∈ buildResolutions sampleEntryTwoRefs sampleModel,
        patchValid sampleWorkflow r = true) →
      ∃ w2, applyPatches sampleWorkflow
        (buildResolutions sampleEntryTwoRefs sampleModel) = Except.ok w2) ∧
    (∀ e, applyPatches sampleWorkflow
        (buildResolutions sampleEntryTwoRefs sampleModel) = Except.error e →
      (∃ r ∈ buildResolutions sampleEntryTwoRefs sampleModel,
        patchValid sampleWorkflow r = false ∧ e = patchErrorMessage r) ∧
      clientApplyResolveResponse sampleWorkflow
        (applyPatches sampleWorkflow
          (buildResolutions sampleEntryTwoRefs sampleModel)) = sampleWorkflow) :=
  c5_batch_all_or_nothing sampleWorkflow
    (buildResolutions sampleEntryTwoRefs sampleModel)

/-- JS toLowerCase, modelled character-wise so it evaluates on literals. -/
def jsToLower (s : String) : String :=
  String.mk (s.toList.map Char.toLower)

/-- JS String.prototype.split on one separator character, modelled on the
character list; like the JS original it never returns an empty array. -/
def splitOnChar (sep : Char) : List Char → List (List Char)
  | [] => [[]]
  | c :: rest =>
    match splitOnChar sep rest with
    | [] => [[]]
    | chunk :: chunks =>
      if c = sep then [] :: chunk :: chunks
      else (c :: chunk) :: chunks

/-- JS: p.split('/').pop().split('\\').pop() - the basename of a path under
either separator convention. -/
def jsBasename (p : String) : String :=
  String.mk ((splitOnChar '\\' ((splitOnChar '/' p.toList).getLastD [])).getLastD [])

/-- JS a || b over an optional string field: undefined and the empty string
fall through to b. -/
def jsOrS (a : Option String) (b : String) : String :=
  match a with
  | some s => if s = "" then b else s
  | none => b

/-- The filename a candidate is compared under after a download
(JS: m.filename || m.model?.filename || ''). -/
def candidateFilename (c : MatchCandidate) : String :=
  jsOrS c.filename (jsOrS c.model.filename "")

/-- The resolution batch autoResolveAfterDownload submits after re-running
analyze: the first entry whose missing basename equals the downloaded
filename case-insensitively is resolved - when it has a match at confidence
100 or bearing the downloaded filename - with one resolution per member of
its deduplicated reference set (JS: nodeRefs = targetMissing.all_node_refs
|| [targetMissing]; resolutions = nodeRefs.map(...)). -/
def autoResolveAfterDownloadResolutions (missingModels : List MissingModel)
    (downloadedFilename : String) : Option (List Resolution) :=
  match missingModels.find? (fun m =>
      jsToLower (jsBasename m.original_path) == jsToLower downloadedFilename) with
  | none => none
  | some target =>
    match target.matchList.find? (fun c =>
        c.confidence == 100 ||
        jsToLower (candidateFilename c) == jsToLower downloadedFilename) with
    | none => none
    | some pm => some (buildResolutions target pm.model)

/-- What one progress poll does besides updating the tracking table. -/
inductive PollAction where
  | reschedulePoll (delayMs : Nat)
  | autoResolveTrigger (filename : String)
  | noFurtherAction
deriving DecidableEq

/-- The client state the polling loop touches: the in-memory workflow and
the activeDownloads table from download id to the entry the download was
started for. -/
structure ClientState where
  workflow : Workflow
  activeDownloads : List (String × MissingModel)
deriving DecidableEq

/-- JS: delete this.activeDownloads[downloadId]. -/
def evictDownload (table : List (String × MissingModel)) (downloadId : String) :
    List (String × MissingModel) :=
  table.filter (fun kv => !(kv.1 == downloadId))

/-- One step of pollDownloadProgress once a progress response arrived,
branching on progress.status exactly as the JS does: downloading and
starting keep the job tracked and poll again after 1000 ms; completed
evicts the job and triggers auto-resolution with the reported filename;
error and cancelled evict the job; any other status keeps the job tracked
and polls again after 500 ms; an id that is not tracked returns at once.
The in-memory workflow is not touched on any branch. -/
def pollStep (s : ClientState) (downloadId : String) (status : String)
    (filename : String) : ClientState × PollAction :=
  match s.activeDownloads.find? (fun kv => kv.1 == downloadId) with
  | none => (s, PollAction.noFurtherAction)
  | some _ =>
    if status == "downloading" || status == "starting" then
      (s, PollAction.reschedulePoll 1000)
    else if status == "completed" then
      ({ s with activeDownloads := evictDownload s.activeDownloads downloadId },
        PollAction.autoResolveTrigger filename)
    else if status == "error" then
      ({ s with activeDownloads := evictDownload s.activeDownloads downloadId },
        PollAction.noFurtherAction)
    else if status == "cancelled" then
      ({ s with activeDownloads := evictDownload s.activeDownloads downloadId },
        PollAction.noFurtherAction)
    else (s, PollAction.reschedulePoll 500)

/-- The statuses the polling loop treats as terminal. -/
def isTerminalStatus (status : String) : Bool :=
  status == "completed" || status == "error" || status == "cancelled"

/-- Whether an action schedules another poll for the job. -/
def schedulesPoll : PollAction → Bool
  | PollAction.reschedulePoll _ => true
  | _ => false

lemma find?_evictDownload (table : List (String × MissingModel)) (id : String) :
    (evictDownload table id).find? (fun kv => kv.1 == id) = none := by
  apply List.find?_eq_none.mpr
  intro kv hkv
  have := (List.mem_filter.mp hkv).2
  simpa using this

lemma pollStep_workflow (s : ClientState) (id st fn : String) :
    (pollStep s id st fn).1.workflow = s.workflow := by
  unfold pollStep
  cases s.activeDownloads.find? (fun kv => kv.1 == id) with
  | none => rfl
  | some kv =>
    by_cases h1 : (st == "downloading" || st == "starting") = true
    · simp [h1]
    · by_cases h2 : (st == "completed") = true
      · simp [h1, h2]
      · by_cases h3 : (st == "error") = true
        · simp [h1, h2, h3]
        · by_cases h4 : (st == "cancelled") = true
          · simp [h1, h2, h3, h4]
          · simp [h1, h2, h3, h4]

/-- C7: a poll of a tracked download job that observes a terminal status
(completed, error or cancelled) evicts the job from the activeDownloads
table and schedules no further poll for it, while a poll observing any
other status leaves the job tracked and schedules another poll; the job is
evicted exactly when a terminal status has been observed. -/
theorem c7_terminal_eviction (s : ClientState)
    (downloadId status filename : String)
    (h : (s.activeDownloads.find? (fun kv => kv.1 == downloadId)).isSome = true) :
    ((pollStep s downloadId status filename).1.activeDownloads.find?
        (fun kv => kv.1 == downloadId)).isSome = !(isTerminalStatus status) ∧
    schedulesPoll (pollStep s downloadId status filename).2 =
      !(isTerminalStatus status) := by
  obtain ⟨kv, hkv⟩ := Option.isSome_iff_exists.mp h
  by_cases h1 : (status == "downloading" || status == "starting") = true
  · have hterm : isTerminalStatus status = false := by
      simp at h1
      rcases h1 with h1 | h1 <;> subst h1 <;> rfl
    simp [pollStep, hkv, h1, hterm, schedulesPoll, h]
  · by_cases h2 : (status == "completed") = true
    · have hst : status = "completed" := by simpa using h2
      subst hst
      simp [pollStep, hkv, h1, isTerminalStatus, schedulesPoll, find?_evictDownload]
    · by_cases h3 : (status == "error") = true
      · have hst : status = "error" := by simpa using h3
        subst hst
        simp [pollStep, hkv, h1, isTerminalStatus, schedulesPoll, find?_evictDownload]
      · by_cases h4 : (status == "cancelled") = true
        · have hst : status = "cancelled" := by simpa using h4
          subst hst
          simp [pollStep, hkv, h1, isTerminalStatus, schedulesPoll, find?_evictDownload]
        · have hterm : isTerminalStatus status = false := by
            simp at h2 h3 h4
            simp [isTerminalStatus, h2, h3, h4]
          simp [pollStep, hkv, h1, h2, h3, h4, hterm, schedulesPoll, h]

/-- C6: a poll that observes the terminal status completed never touches the
in-memory workflow itself (no pollStep branch does) - it evicts the job and
emits the auto-resolve trigger carrying the downloaded filename; the
follow-up re-runs analyze, and when the entry whose missing basename equals
the downloaded filename case-insensitively has a candidate at confidence
100, the submitted batch carries one resolution per member of that entry's
deduplicated reference set. -/
theorem c6_completed_triggers_auto_resolution (s : ClientState)
    (downloadId fn : String) (entries : List MissingModel) (target : MissingModel)
    (htracked : (s.activeDownloads.find? (fun kv => kv.1 == downloadId)).isSome = true)
    (htarget : entries.find? (fun m =>
        jsToLower (jsBasename m.original_path) == jsToLower fn) = some target)
    (hperfect : ∃ c ∈ target.matchList, c.confidence = 100) :
    (∀ st fn2, (pollStep s downloadId st fn2).1.workflow = s.workflow) ∧
    (pollStep s downloadId "completed" fn).2 = PollAction.autoResolveTrigger fn ∧
    (∃ pm : MatchCandidate, autoResolveAfterDownloadResolutions entries fn =
        some (buildResolutions target pm.model) ∧
      List.Forall₂ (resolutionFor pm.model) (nodeRefsOf target)
        (buildResolutions target pm.model)) := by
  obtain ⟨kv, hkv⟩ := Option.isSome_iff_exists.mp htracked
  refine ⟨fun st fn2 => pollStep_workflow s downloadId st fn2, ?_, ?_⟩
  · simp [pollStep, hkv]
  · have hfound : (target.matchList.find? (fun c =>
        c.confidence == 100 ||
        jsToLower (candidateFilename c) == jsToLower fn)).isSome = true := by
      rw [List.find?_isSome]
      obtain ⟨c, hc, h100⟩ := hperfect
      exact ⟨c, hc, by simp [h100]⟩
    obtain ⟨pm, hpm⟩ := Option.isSome_iff_exists.mp hfound
    refine ⟨pm, ?_, buildResolutions_forall2 target pm.model⟩
    unfold autoResolveAfterDownloadResolutions
    rw [htarget]
    show (match target.matchList.find? (fun c =>
        c.confidence == 100 ||
        jsToLower (candidateFilename c) == jsToLower fn) with
      | none => none
      | some pm => some (buildResolutions target pm.model)) =
      some (buildResolutions target pm.model)
    rw [hpm]

/-- Sample entry matched by the downloaded file of the C6 witness. -/
def downloadedEntry : MissingModel :=
  { node_id := 3, widget_index := 0,
    original_path := "checkpoints/model_v1.safetensors",
    matchList := [cand100],
    all_node_refs := some [sampleRefTop, sampleRefSub] }

/-- Sample client state with one tracked download. -/
def sampleClientState : ClientState :=
  { workflow := sampleWorkflow, activeDownloads := [("dl-1", downloadedEntry)] }

/-- Witness for C6 at a concrete state, entry list and filename. -/
theorem c6_witness :
    (∀ st fn2, (pollStep sampleClientState "dl-1" st fn2).1.workflow =
      sampleClientState.workflow) ∧
    (pollStep sampleClientState "dl-1" "completed" "model_v1.safetensors").2 =
      PollAction.autoResolveTrigger "model_v1.safetensors" ∧
    (∃ pm : MatchCandidate, autoResolveAfterDownloadResolutions [downloadedEntry]
        "model_v1.safetensors" = some (buildResolutions downloadedEntry pm.model) ∧
      List.Forall₂ (resolutionFor pm.model) (nodeRefsOf downloadedEntry)
        (buildResolutions downloadedEntry pm.model)) :=
  c6_completed_triggers_auto_resolution sampleClientState "dl-1"
    "model_v1.safetensors" [downloadedEntry] downloadedEntry
    (by decide) (by decide) ⟨cand100, by decide, by decide⟩

/-- Witness for C7 at a concrete state and the terminal status completed. -/
theorem c7_witness :
    ((pollStep sampleClientState "dl-1" "completed" "model_v1.safetensors").1.activeDownloads.find?
        (fun kv => kv.1 == "dl-1")).isSome = !(isTerminalStatus "completed") ∧
    schedulesPoll
        (pollStep sampleClientState "dl-1" "completed" "model_v1.safetensors").2 =
      !(isTerminalStatus "completed") :=
  c7_terminal_eviction sampleClientState "dl-1" "completed" "model_v1.safetensors"
    (by decide)

/-- The unit table of formatBytes (JS: const sizes = ['B','KB','MB','GB']). -/
def sizesUnits : List String := ["B", "KB", "MB", "GB"]

/-- The size index of formatBytes: Math.floor(Math.log(bytes) /
Math.log(1024)), the floor of the base-1024 logarithm; the binary
floating-point evaluation is idealized by the exact real value, which
agrees with it at every power-of-1024 boundary. -/
def sizeIndex (bytes : Nat) : Nat := Nat.log 1024 bytes

/-- JS sizes[i]: an out-of-bounds read yields undefined, which string
concatenation renders as the text undefined. -/
def jsIndexUnit (i : Nat) : String := (sizesUnits[i]?).getD "undefined"

/-- The numeric part parseFloat((bytes / Math.pow(k, i)).toFixed(1)): the
value bytes / 1024 ^ i rounded half-up to one decimal - the
exact-arithmetic idealization of toFixed on the double - with a trailing .0
dropped the way parseFloat re-parses the text. -/
def numberString (bytes i : Nat) : String :=
  let den := 1024 ^ i
  let tenths := (20 * bytes + den) / (2 * den)
  if tenths % 10 = 0 then toString (tenths / 10)
  else toString (tenths / 10) ++ "." ++ toString (tenths % 10)

/-- formatBytes of the dialog: 0 renders as 0 B, otherwise the scaled
number followed by the unit the size index selects. -/
def formatBytes (bytes : Nat) : String :=
  if bytes = 0 then "0 B"
  else numberString bytes (sizeIndex bytes) ++ " " ++ jsIndexUnit (sizeIndex bytes)

/-- C10: formatBytes 0 is 0 B; for byte counts from 1 up to but excluding
1024 ^ 4 the result is a number followed by one of the four units B, KB, MB,
GB; from 1024 ^ 4 on the computed size index leaves the four-element unit
table and the rendered unit is the out-of-bounds text undefined. -/
theorem c10_formatBytes_unit_range (b : Nat) :
    formatBytes 0 = "0 B" ∧
    (1 ≤ b → b < 1024 ^ 4 →
      ∃ u ∈ sizesUnits, formatBytes b = numberString b (sizeIndex b) ++ " " ++ u) ∧
    (1024 ^ 4 ≤ b →
      formatBytes b = numberString b (sizeIndex b) ++ " " ++ "undefined") := by
  refine ⟨rfl, ?_, ?_⟩
  · intro h1 h2
    have hb0 : ¬b = 0 := by omega
    have hlt : sizeIndex b < 4 := by
      unfold sizeIndex
      exact (Nat.lt_pow_iff_log_lt (by norm_num) (by omega)).mp h2
    have hlen : sizeIndex b < sizesUnits.length := by simpa [sizesUnits] using hlt
    have hget := List.getElem?_eq_getElem hlen
    refine ⟨jsIndexUnit (sizeIndex b), ?_, ?_⟩
    · unfold jsIndexUnit
      rw [hget]
      simpa using List.getElem_mem hlen
    · unfold formatBytes
      rw [if_neg hb0]
  · intro h4
    have hpow : (0 : Nat) < 1024 ^ 4 := by norm_num
    have hb0 : ¬b = 0 := by omega
    have hge : 4 ≤ sizeIndex b := by
      unfold sizeIndex
      exact (Nat.pow_le_iff_le_log (by norm_num) (by omega)).mp h4
    have hnone : sizesUnits[sizeIndex b]? = none :=
      List.getElem?_eq_none (by simpa [sizesUnits] using hge)
    unfold formatBytes
    rw [if_neg hb0]
    unfold jsIndexUnit
    rw [hnone]
    rfl
